import Mathlib

/-!
Verification development for the `dos` crate (discrete-time closed-loop
simulator for the GMT telescope structure).

The Rust sources are shallowly embedded below:

* `src/io.rs`       : the typed signal catalog (`IO<T>` and its variants) and
  the matching rules against the wind-load record;
* `src/controllers/state_space/mod.rs` : the state-space builder
  (`DiscreteStateSpace`) and the discrete modal engine (`DiscreteModalSolver`);
* `src/wind_loads.rs` : the wind-load builder (`WindLoads`) and source
  (`WindLoading`);
* `src/lib.rs`      : the `DOS` step protocol.

Machine doubles (`f64`) are embedded as exact scalars: the runtime engine and
the wind source are stated over an arbitrary scalar carrier (instantiated at
`ℚ` for concrete evaluations, and at a NaN-carrying type where non-finite
values matter), while the builder stages that use `π`, `exp` and square roots
are stated over `ℝ`.  This keeps the algebraic structure of every computation
(order of concatenations, folds, truncations, selections) bit-faithful; no
claim below depends on rounding.
-/

namespace Dos

/-- Signal identities of the closed catalog, one constructor per variant of the
Rust `IO<T>` enum declared by `build_io!` in `src/io.rs` (the variant payloads
are carried separately, see `Envelope`). -/
inductive Tag
  | OSSTopEnd6F
  | MCM2Lcl6F
  | OSSTruss6F
  | OSSM1Lcl6F
  | OSSCellLcl6F
  | OSSGIR6F
  | OSSCRING6F
  | M1DistributedWindf
  | M1Segment1AxialD
  | M1Segment2AxialD
  | M1Segment3AxialD
  | M1Segment4AxialD
  | M1Segment5AxialD
  | M1Segment6AxialD
  | M1Segment7AxialD
  | OSSHarpointDeltaF
  | OSSHardpointD
  | M1ActuatorsSegment1
  | M1ActuatorsSegment2
  | M1ActuatorsSegment3
  | M1ActuatorsSegment4
  | M1actuatorsSegment5
  | M1actuatorsSegment6
  | M1ActuatorsSegment7
  | OSSAzDriveF
  | OSSElDriveF
  | OSSGIRDriveF
  | OSSAzDriveD
  | OSSElDriveD
  | OSSGIRDriveD
  | OSSAzDriveTorque
  | OSSElDriveTorque
  | OSSRotDriveTorque
  | OSSAzEncoderAngle
  | OSSElEncoderAngle
  | OSSRotEncoderAngle
  | SlewTorques
  | OSSM1LOS
  | MCM2LOS6D
  | OSSBASE6F
  | OSSIMUs6d
  | MCM2SmHexF
  | MCM2PMA1F
  | MCM2CP6F
  | MCM2RB6F
  | MCM2CP6D
  | MCM2RB6D
  | MCM2Lcl6D
  | MCM2TE6F
  | MCM2TEIF6F
  | OSSTrussTEIF6f
  | MCM2GravCS0
  | MCM2PZTS1F
  | MCM2PZTS2F
  | MCM2PZTS3F
  | MCM2PZTS4F
  | MCM2PZTS5F
  | MCM2PZTS6F
  | MCM2PZTS7F
  | MCM2SmallS16F
  | MCM2SmallS26F
  | MCM2SmallS36F
  | MCM2SmallS46F
  | MCM2SmallS56F
  | MCM2SmallS66F
  | MCM2SmallS76F
  | OSSGravCS0
  | OSSTrussIF6D
  | OSSGIR6D
  | OSSCRING6D
  | OSSBASE6D
  | OSSM1Lcl
  | OSSTruss6d
  | OSSCellLcl
  | MCM2SmallS16D
  | MCM2PZTS1D
  | MCM2SmallS26D
  | MCM2PZTS2D
  | MCM2SmallS36D
  | MCM2PZTS3D
  | MCM2SmallS46D
  | MCM2PZTS4D
  | MCM2SmallS56D
  | MCM2PZTS5D
  | MCM2SmallS66D
  | MCM2PZTS6D
  | MCM2SmallS76D
  | MCM2PZTS7D
  | M1SurfacesD
  | M1EdgeSensors
  | MCM2CP1D
  | MCM2SmHexD
  | M2edgesensors
  | MCM2TEIF6D
  | MCM2TE6D
  | M2ReferenceBody1AxialD
  | M2ReferenceBody2AxialD
  | M2ReferenceBody3AxialD
  | M2ReferenceBody4AxialD
  | M2ReferenceBody5AxialD
  | M2ReferenceBody6AxialD
  | M2ReferenceBody7AxialD
  | MountCmd
  | M1HPCmd
  | M1HPLC
  | M1CGFM
  deriving DecidableEq, Repr

/-- Run-time envelope on the bus: embeds the Rust `IO<T>` enum of `src/io.rs`,
which is isomorphic to a variant identity (`Tag`) paired with the variant's
`data: Option<T>` field. -/
structure Envelope (T : Type) where
  tag : Tag
  data : Option T
  deriving DecidableEq, Repr

/-- Error payload of the engine's `inputs` conversion, embedding `IOError` of
`src/io.rs`.  The Rust `Missing(String)` constructor carries the formatted
variant name; the embedding carries the variant identity itself. -/
inductive IOError
  | Missing (t : Tag)
  | Empty
  | FileNotFound
  | PickleRead
  | Outputs
  deriving DecidableEq, Repr

/-- Wind-load error enum of `src/wind_loads.rs`. -/
inductive WindLoadsError
  | Len
  | Empty
  | FileNotFound
  | PickleRead
  | Outputs
  deriving DecidableEq, Repr

/-- Embeds `DOSError<T>` of `src/error.rs`.  The Rust `IO(Box<dyn Error>)`
constructor (an opaque boxed error) is embedded as the payload-free
constructor `IOFail`. -/
inductive DOSError (T : Type)
  | Component (t : T)
  | Outputs
  | Inputs
  | Step
  | IOFail
  deriving DecidableEq, Repr

/-- Modelled from the spec: `exponential.rs` is not among the sources (only its
caller `state_space/mod.rs` is), so the per-mode discrete solver state is laid
out from spec section 4.2: the 2x2 transition matrix `Φ` (entries `phi00` ..
`phi11`), the 2-vector input gain `Γ` (`g0`, `g1`), the input influence row
`b`, the output influence column `c`, and the two state scalars `(x0, x1)`. -/
structure Exponential (α : Type) where
  tau : α
  phi00 : α
  phi01 : α
  phi10 : α
  phi11 : α
  g0 : α
  g1 : α
  b : List α
  c : List α
  x0 : α
  x1 : α
  deriving DecidableEq, Repr

/-- Modelled from the spec (section 4.2), `exponential.rs` being absent from
the sources: `solve(u)` computes the scalar force `f = b·u`, produces the
output contribution `y = c · x_k` (from the pre-advance state, no input
feed-through), then advances the two state scalars by
`[x_{k+1}; ẋ_{k+1}] = Φ·[x_k; ẋ_k] + Γ·f`.  Returns the contribution and the
advanced solver (the Rust method mutates the solver in place). -/
def Exponential.solve {α : Type} [Add α] [Mul α] [Zero α]
    (m : Exponential α) (u : List α) : List α × Exponential α :=
  let f := (List.zipWith (· * ·) m.b u).foldl (· + ·) 0
  let y := m.c.map (fun cj => cj * m.x0)
  (y, { m with
        x0 := m.phi00 * m.x0 + m.phi01 * m.x1 + m.g0 * f
        x1 := m.phi10 * m.x0 + m.phi11 * m.x1 + m.g1 * f })

/-- Embeds the `DiscreteModalSolver<T>` struct of
`src/controllers/state_space/mod.rs` (fields `u`, `u_tags`, `y`, `y_sizes`,
`y_tags`, `state_space`). -/
structure DiscreteModalSolver (α : Type) where
  u : List α
  u_tags : List Tag
  y : List α
  y_sizes : List Nat
  y_tags : List Tag
  state_space : List (Exponential α)
  deriving DecidableEq, Repr

/-- Element-wise accumulation `a.iter_mut().zip(ys).for_each(|(a,y)| *a += y)`
used by the engine's fold: entries of `a` beyond the length of `ys` are left
unchanged, and excess entries of `ys` are dropped (Rust `zip` truncates). -/
def addInto {α : Type} [Add α] (a ys : List α) : List α :=
  List.zipWith (· + ·) a ys ++ a.drop ys.length

/-- Sequential (single-threaded) evaluation of the engine's per-mode
map+reduce from `Iterator::next` (`state_space/mod.rs` lines 387-416): each
mode's `solve(u)` contribution is accumulated element-wise into the output
buffer while the mode states advance.  Under rayon's fold/reduce this is the
single-threaded reduction order. -/
def runModes {α : Type} [Add α] [Mul α] [Zero α]
    (u : List α) : List (Exponential α) → List α → List α × List (Exponential α)
  | [], acc => (acc, [])
  | m :: rest, acc =>
    let (yc, m') := m.solve u
    let (y, rest') := runModes u rest (addInto acc yc)
    (y, m' :: rest')

/-- Embeds `Iterator::next` for `DiscreteModalSolver<Exponential>`
(`state_space/mod.rs` lines 387-416): rebuilds `y` from a zero buffer of the
current length of `y` by folding every mode's contribution, and always returns
`Some(())`. -/
def engineNext {α : Type} [Add α] [Mul α] [Zero α]
    (s : DiscreteModalSolver α) : DiscreteModalSolver α × Option Unit :=
  let n := s.y.length
  let (y, ss) := runModes s.u s.state_space (List.replicate n 0)
  ({ s with y := y, state_space := ss }, some ())

/-- Step function of the engine: the state component of `Iterator::next`. -/
def stepEngine {α : Type} [Add α] [Mul α] [Zero α]
    (s : DiscreteModalSolver α) : DiscreteModalSolver α :=
  (engineNext s).1

/-- Embeds the provided method `DOS::step` of `src/lib.rs` (lines 48-53):
`self.next().and(Some(self)).ok_or(DOSError::Step)` — an error exactly when
`next` returns `None`. -/
def dosStep {α : Type} [Add α] [Mul α] [Zero α]
    (s : DiscreteModalSolver α) : Except (DOSError Unit) (DiscreteModalSolver α) :=
  match engineNext s with
  | (s', some _) => .ok s'
  | (_, none) => .error .Step

/-- Embeds the payload extraction of `DOS::inputs` for the engine
(`state_space/mod.rs` lines 419-431): each received envelope is converted to
`Result<Vec<f64>, _>` (erroring on a missing payload, as the `From` impl of
`src/io.rs` lines 76-83 does) and the results are collected, short-circuiting
at the first error. -/
def collectPayloads {α : Type} :
    List (Envelope (List α)) → Except (DOSError IOError) (List (List α))
  | [] => .ok []
  | x :: rest =>
    match x.data with
    | none => .error (.Component (.Missing x.tag))
    | some v => (collectPayloads rest).map (fun l => v :: l)

/-- Embeds `DOS::inputs` for `DiscreteModalSolver<Exponential>`
(`state_space/mod.rs` lines 419-431): `u` becomes the flattened concatenation
of the received payloads, in the order received; no tag filtering, reordering
or zero-filling takes place. -/
def engineInputs {α : Type} (s : DiscreteModalSolver α)
    (data : List (Envelope (List α))) :
    Except (DOSError IOError) (DiscreteModalSolver α) :=
  (collectPayloads data).map (fun ls => { s with u := ls.flatten })

/-- Embeds the slicing loop of `DOS::outputs` for the engine
(`state_space/mod.rs` lines 432-443): walks the declared `(tag, size)` pairs
keeping a running position `pos`, emitting for each pair the envelope whose
payload is the copy `y[pos..pos+n].to_vec()` (in-bounds under the build
invariant that the sizes sum to the length of `y`). -/
def sliceOuts {α : Type} (y : List α) :
    List (Tag × Nat) → Nat → List (Envelope (List α))
  | [], _ => []
  | (t, n) :: rest, pos =>
    ⟨t, some ((y.drop pos).take n)⟩ :: sliceOuts y rest (pos + n)

/-- Embeds `DOS::outputs` for `DiscreteModalSolver<Exponential>`
(`state_space/mod.rs` lines 432-443): one `Some` envelope per declared output
tag, collected into `Some` of the whole sequence. -/
def engineOutputs {α : Type} (s : DiscreteModalSolver α) :
    Option (List (Envelope (List α))) :=
  some (sliceOuts s.y (s.y_tags.zip s.y_sizes) 0)

/-- State-passing form of the engine's `outputs`: the Rust method takes
`&mut self` but assigns no field (the running `pos` is a local), so the
returned state is the argument unchanged. -/
def engineOutputsCall {α : Type} (s : DiscreteModalSolver α) :
    Option (List (Envelope (List α))) × DiscreteModalSolver α :=
  (engineOutputs s, s)

/-- Embeds the `Loads` enum of `src/wind_loads.rs` (declared by the `loads!`
macro): one constructor per wind-load stream, each carrying the time series of
6-DOF load vectors (`Vec<Vec<f64>>`). -/
inductive Loads (α : Type)
  | OSSTopEnd6F (v : List (List α))
  | OSSTruss6F (v : List (List α))
  | OSSGIR6F (v : List (List α))
  | OSSCRING6F (v : List (List α))
  | OSSCellLcl6F (v : List (List α))
  | OSSM1Lcl6F (v : List (List α))
  | MCM2Lcl6F (v : List (List α))
  deriving DecidableEq, Repr

/-- Embeds `Loads::len` of `src/wind_loads.rs`: the number of samples of the
carried time series. -/
def Loads.len {α : Type} : Loads α → Nat
  | .OSSTopEnd6F v => v.length
  | .OSSTruss6F v => v.length
  | .OSSGIR6F v => v.length
  | .OSSCRING6F v => v.length
  | .OSSCellLcl6F v => v.length
  | .OSSM1Lcl6F v => v.length
  | .MCM2Lcl6F v => v.length

/-- Embeds `IO::<T>::data` of `src/io.rs` (`io_match_wind_loads!`): a tag
matches a wind-load stream exactly when it is the like-named variant among the
seven wind variants; every other combination is no-match. -/
def Tag.wdata {α : Type} : Tag → Loads α → Option (List (List α))
  | .OSSTopEnd6F, .OSSTopEnd6F v => some v
  | .OSSTruss6F, .OSSTruss6F v => some v
  | .OSSGIR6F, .OSSGIR6F v => some v
  | .OSSCRING6F, .OSSCRING6F v => some v
  | .OSSCellLcl6F, .OSSCellLcl6F v => some v
  | .OSSM1Lcl6F, .OSSM1Lcl6F v => some v
  | .MCM2Lcl6F, .MCM2Lcl6F v => some v
  | _, _ => none

/-- Embeds `IO::<T>::ndata` of `src/io.rs`: like `wdata` but keeping only the
first `n` samples (`v[..n].to_owned()`; the Rust slice panics when `n` exceeds
the stream length — `n_sample`'s assertion keeps `n` in bounds, and the
theorems below carry that bound, so the total `take` agrees with the source on
every non-panicking execution). -/
def Tag.ndata {α : Type} (t : Tag) (l : Loads α) (n : Nat) :
    Option (List (List α)) :=
  (t.wdata l).map (fun v => v.take n)

/-- Embeds the `WindLoads` builder struct of `src/wind_loads.rs`: the parsed
load record (`loads`, `time`) plus the builder state (`n_sample`,
`tagged_loads`). -/
structure WindLoads (α : Type) where
  loads : List (Option (Loads α))
  time : List α
  n_sample : Option Nat
  tagged_loads : List (Envelope (List (List α)))
  deriving DecidableEq, Repr

namespace WindLoads

/-- Embeds `WindLoads::len`: the sample count of the first present load
stream, or the `Len` error when none is present. -/
def len {α : Type} (w : WindLoads α) : Except (DOSError WindLoadsError) Nat :=
  match w.loads.findSome? (fun x => x.map Loads.len) with
  | some n => .ok n
  | none => .error (.Component .Len)

/-- Embeds `WindLoads::tagged_load`: searches the record for the first stream
the given tag matches, truncated to `n_sample` samples when that is set;
`Empty` error when no stream matches. -/
def tagged_load {α : Type} (w : WindLoads α) (t : Tag) :
    Except (DOSError WindLoadsError) (Option (List (List α))) :=
  match w.n_sample with
  | some n =>
    match w.loads.findSome? (fun x => x.bind (fun l => t.ndata l n)) with
    | some v => .ok (some v)
    | none => .error (.Component .Empty)
  | none =>
    match w.loads.findSome? (fun x => x.bind (fun l => t.wdata l)) with
    | some v => .ok (some v)
    | none => .error (.Component .Empty)

/-- Embeds `WindLoads::n_sample`: records the truncation length.  The source
asserts `0 < n_sample ∧ n_sample ≤ len` and panics otherwise; the embedding
covers the non-panicking executions (the theorems below carry those bounds)
and keeps the source's `if n_sample <= n { n_sample } else { n }` guard. -/
def n_sampleSet {α : Type} (w : WindLoads α) (n : Nat) :
    Except (DOSError WindLoadsError) (WindLoads α) := do
  let l ← w.len
  .ok { w with n_sample := some (if n ≤ l then n else l) }

/-- Embeds `WindLoads::truss`: pushes the truss stream under its own tag. -/
def truss {α : Type} (w : WindLoads α) :
    Except (DOSError WindLoadsError) (WindLoads α) :=
  (w.tagged_load .OSSTruss6F).map
    (fun d => { w with tagged_loads := w.tagged_loads ++ [⟨.OSSTruss6F, d⟩] })

/-- Embeds `WindLoads::topend`: pushes the top-end stream under its own tag. -/
def topend {α : Type} (w : WindLoads α) :
    Except (DOSError WindLoadsError) (WindLoads α) :=
  (w.tagged_load .OSSTopEnd6F).map
    (fun d => { w with tagged_loads := w.tagged_loads ++ [⟨.OSSTopEnd6F, d⟩] })

/-- Embeds `WindLoads::m2_asm_topend` (`src/wind_loads.rs` lines 157-162): the
stream matched by the `OSSTopEnd6F` selector is pushed under the `MCM2TE6F`
tag. -/
def m2_asm_topend {α : Type} (w : WindLoads α) :
    Except (DOSError WindLoadsError) (WindLoads α) :=
  (w.tagged_load .OSSTopEnd6F).map
    (fun d => { w with tagged_loads := w.tagged_loads ++ [⟨.MCM2TE6F, d⟩] })

/-- Embeds `WindLoads::cring`. -/
def cring {α : Type} (w : WindLoads α) :
    Except (DOSError WindLoadsError) (WindLoads α) :=
  (w.tagged_load .OSSCRING6F).map
    (fun d => { w with tagged_loads := w.tagged_loads ++ [⟨.OSSCRING6F, d⟩] })

/-- Embeds `WindLoads::gir`. -/
def gir {α : Type} (w : WindLoads α) :
    Except (DOSError WindLoadsError) (WindLoads α) :=
  (w.tagged_load .OSSGIR6F).map
    (fun d => { w with tagged_loads := w.tagged_loads ++ [⟨.OSSGIR6F, d⟩] })

/-- Embeds `WindLoads::m1_cell`. -/
def m1_cell {α : Type} (w : WindLoads α) :
    Except (DOSError WindLoadsError) (WindLoads α) :=
  (w.tagged_load .OSSCellLcl6F).map
    (fun d => { w with tagged_loads := w.tagged_loads ++ [⟨.OSSCellLcl6F, d⟩] })

/-- Embeds `WindLoads::m1_segments`. -/
def m1_segments {α : Type} (w : WindLoads α) :
    Except (DOSError WindLoadsError) (WindLoads α) :=
  (w.tagged_load .OSSM1Lcl6F).map
    (fun d => { w with tagged_loads := w.tagged_loads ++ [⟨.OSSM1Lcl6F, d⟩] })

/-- Embeds `WindLoads::m2_segments`. -/
def m2_segments {α : Type} (w : WindLoads α) :
    Except (DOSError WindLoadsError) (WindLoads α) :=
  (w.tagged_load .MCM2Lcl6F).map
    (fun d => { w with tagged_loads := w.tagged_loads ++ [⟨.MCM2Lcl6F, d⟩] })

/-- Embeds `WindLoads::m2_asm_reference_bodies` (`src/wind_loads.rs` lines
198-203): the stream matched by the `MCM2Lcl6F` selector is pushed under the
`MCM2RB6F` tag. -/
def m2_asm_reference_bodies {α : Type} (w : WindLoads α) :
    Except (DOSError WindLoadsError) (WindLoads α) :=
  (w.tagged_load .MCM2Lcl6F).map
    (fun d => { w with tagged_loads := w.tagged_loads ++ [⟨.MCM2RB6F, d⟩] })

/-- Embeds `WindLoads::select_all_with_asm` (`src/wind_loads.rs` lines
215-223). -/
def select_all_with_asm {α : Type} (w : WindLoads α) :
    Except (DOSError WindLoadsError) (WindLoads α) := do
  let w1 ← w.m2_asm_topend
  let w2 ← w1.m2_asm_reference_bodies
  let w3 ← w2.truss
  let w4 ← w3.m1_segments
  let w5 ← w4.m1_cell
  let w6 ← w5.gir
  w6.cring

end WindLoads

/-- Embeds the `WindLoading` source struct of `src/wind_loads.rs`: the tagged
streams (each `data` holding the remaining samples of its iterator) and the
sample count. -/
structure WindLoading (α : Type) where
  loads : List (Envelope (List (List α)))
  n_sample : Nat
  deriving DecidableEq, Repr

/-- Embeds `WindLoads::build` (`src/wind_loads.rs` lines 225-230):
`n_sample.unwrap_or(len()?)` evaluates `len` eagerly, so an all-absent record
errors even when `n_sample` is set. -/
def WindLoads.build {α : Type} (w : WindLoads α) :
    Except (DOSError WindLoadsError) (WindLoading α) := do
  let l ← w.len
  .ok ⟨w.tagged_loads, w.n_sample.getD l⟩

/-- Embeds the body of `WindLoading::outputs` (`src/wind_loads.rs` lines
259-264): the `From<&mut IO<U>>` conversion of `src/io.rs` (lines 49-60) pops
the next sample of each stream, and `collect::<Option<Vec<_>>>` short-circuits
at the first exhausted (or absent) stream, leaving the later streams
untouched. -/
def windOutputsAux {α : Type} :
    List (Envelope (List (List α))) →
    Option (List (Envelope (List α))) × List (Envelope (List (List α)))
  | [] => (some [], [])
  | x :: rest =>
    match x.data with
    | none => (none, x :: rest)
    | some [] => (none, x :: rest)
    | some (s :: tail) =>
      let x' : Envelope (List (List α)) := ⟨x.tag, some tail⟩
      match windOutputsAux rest with
      | (none, rest') => (none, x' :: rest')
      | (some outs, rest') => (some (⟨x.tag, some s⟩ :: outs), x' :: rest')

/-- State-passing form of `WindLoading::outputs`: returns the produced
envelopes (if every selected stream still has a sample) together with the
mutated source. -/
def windOutputsCall {α : Type} (w : WindLoading α) :
    Option (List (Envelope (List α))) × WindLoading α :=
  let (r, loads') := windOutputsAux w.loads
  (r, { w with loads := loads' })

/-- Embeds the mount `Controller` adapter state of
`src/controllers/mount/controller/mod.rs`: the filter's scalar buffers. -/
structure MountController (α : Type) where
  cmd : List α
  oss_az_drive : List α
  oss_el_drive : List α
  oss_gir_drive : List α
  deriving DecidableEq, Repr

/-- State-passing form of `DOS::outputs` for the mount controller
(`src/controllers/mount/controller/mod.rs` lines 77-81): a `Some` envelope
holding a copy of the `cmd` buffer; no field is assigned, so the returned
state is the argument unchanged. -/
def mountOutputsCall {α : Type} (c : MountController α) :
    Option (List (Envelope (List α))) × MountController α :=
  (some [⟨.MountCmd, some c.cmd⟩], c)

/-- Modelled from the spec: the `fem` crate (an external collaborator, not in
the sources) supplies `FEM::eigen_frequencies_to_radians`, which per spec
section 4.3 converts the FEM eigenfrequencies from Hz to rad/s,
`ω = 2·π·f`. -/
noncomputable def eigen_frequencies_to_radians (efs : List ℝ) : List ℝ :=
  efs.map (fun f => 2 * Real.pi * f)

/-- Semantics of Rust's `f64::to_radians` (standard library): conversion from
degrees to radians, `x · π / 180`. -/
noncomputable def f64_to_radians (x : ℝ) : ℝ :=
  x * Real.pi / 180

/-- Embeds the eigenvalue adjustment of `DiscreteStateSpace::build`
(`state_space/mod.rs` lines 302-308): the FEM eigenfrequencies are converted
by `eigen_frequencies_to_radians`, then each override pair `(i, v)` overwrites
`w[i] = v.to_radians()` in order.  (The Rust index write panics out of
bounds; `List.set` is a no-op there, and the theorems use in-bounds
indices.) -/
noncomputable def buildOmega (efsHz : List ℝ)
    (overrides : Option (List (Nat × ℝ))) : List ℝ :=
  let w := eigen_frequencies_to_radians efsHz
  match overrides with
  | none => w
  | some l => l.foldl (fun w iv => w.set iv.1 (f64_to_radians iv.2)) w

/-- Embeds the mode-count truncation of `DiscreteStateSpace::build`
(`state_space/mod.rs` lines 309-316): with a cutoff, the fold counts the FEM
eigenfrequencies (in Hz, pre-override) that are at most the cutoff; without
one, the FEM mode count is kept.  Stated over any linear order carrying the
`f64` comparisons. -/
def buildNModes {α : Type} [LinearOrder α] (max_ef : Option α)
    (eigen_frequencies : List α) (n_modes_fem : Nat) : Nat :=
  match max_ef with
  | some m => eigen_frequencies.foldl (fun n ef => if ef ≤ m then n + 1 else n) 0
  | none => n_modes_fem

/-- Embeds the closure `norm_x` of `DiscreteStateSpace::hankel_singular_value`
(`state_space/mod.rs` line 255): the Euclidean norm of a slice. -/
noncomputable def norm_x (x : List ℝ) : ℝ :=
  Real.sqrt ((x.map (fun v => v * v)).sum)

/-- Embeds `DiscreteStateSpace::hankel_singular_value` (`state_space/mod.rs`
lines 253-257): `0.25 · ‖b‖ · ‖c‖ / (w · z)`. -/
noncomputable def hankel_singular_value (w z : ℝ) (b c : List ℝ) : ℝ :=
  0.25 * norm_x b * norm_x c / (w * z)

/-- Modelled from the spec (section 4.2), `exponential.rs` being absent from
the sources: `Exponential::from_second_order` discretizes one mode with
`Φ = exp(Aτ)` for `A = [[0,1],[-ω²,-2ζω]]` and `Γ = A⁻¹(Φ−I)B` (its
double-integrator limit when `ω = 0`), starting from the zero state. -/
noncomputable def from_second_order (tau w zeta : ℝ) (b c : List ℝ) :
    Exponential ℝ :=
  let A : Matrix (Fin 2) (Fin 2) ℝ :=
    Matrix.of ![![0, 1], ![-(w * w), -(2 * zeta * w)]]
  let phi := NormedSpace.exp ℝ (tau • A)
  let gamma : Fin 2 → ℝ :=
    if w = 0 then ![tau * tau / 2, tau] else (A⁻¹ * (phi - 1)).mulVec ![0, 1]
  ⟨tau, phi 0 0, phi 0 1, phi 1 0, phi 1 1, gamma 0, gamma 1, b, c, 0, 0⟩

/-- Embeds the mode-selection match of `DiscreteStateSpace::build`
(`state_space/mod.rs` lines 327-360): with a Hankel threshold, mode `k` (for
`k` below the truncated count) survives exactly when its Hankel singular value
exceeds the threshold; without one, every mode below the count is kept.  `B`
is the list of rows of `forces_2_modes` and `C` the list of columns of
`modes_2_nodes`. -/
noncomputable def buildStateSpace (hsv_t : Option ℝ) (n_modes : Nat)
    (tau : ℝ) (w zeta : List ℝ) (B C : List (List ℝ)) : List (Exponential ℝ) :=
  match hsv_t with
  | some t =>
    (List.range n_modes).filterMap (fun k =>
      let b := B.getD k []
      let c := C.getD k []
      let hsv := hankel_singular_value (w.getD k 0) (zeta.getD k 0) b c
      if hsv > t then some (from_second_order tau (w.getD k 0) (zeta.getD k 0) b c)
      else none)
  | none =>
    (List.range n_modes).map (fun k =>
      from_second_order tau (w.getD k 0) (zeta.getD k 0) (B.getD k []) (C.getD k []))

/-- Spec-side Hankel singular value, written as the spec states it:
`σ_k = ‖b_k‖·‖c_k‖ / (4·ω_k·ζ_k)` (to be compared against the source's
`hankel_singular_value`). -/
noncomputable def sigmaSpec (w z : ℝ) (b c : List ℝ) : ℝ :=
  norm_x b * norm_x c / (4 * w * z)

/-- Spec-side input gathering, written as the spec states it: concatenate the
payloads of the envelopes whose tags appear in the declared input list, in
declared order, zero-filling a tag with no envelope and letting the last
envelope win when several carry the same tag (`decl` pairs each declared tag
with its declared width). -/
def specInputsU {α : Type} [Zero α] (decl : List (Tag × Nat))
    (data : List (Envelope (List α))) : List α :=
  (decl.map (fun tn =>
    (data.foldl (fun acc x => if x.tag = tn.1 then x.data else acc) none).getD
      (List.replicate tn.2 0))).flatten

/-- Scalar carrier with a non-finite element: finite doubles are carried
exactly and every non-finite double (NaN or infinity) is collapsed to `nan`.
Addition and multiplication propagate `nan` exactly as IEEE-754 arithmetic
propagates non-finite operands to NaN results on the operations the engine
performs. -/
inductive FPq
  | nan
  | val (q : ℚ)
  deriving DecidableEq, Repr

/-- NaN-propagating addition. -/
def FPq.add : FPq → FPq → FPq
  | .val a, .val b => .val (a + b)
  | _, _ => .nan

/-- NaN-propagating multiplication. -/
def FPq.mul : FPq → FPq → FPq
  | .val a, .val b => .val (a * b)
  | _, _ => .nan

instance : Add FPq := ⟨FPq.add⟩

instance : Mul FPq := ⟨FPq.mul⟩

instance : Zero FPq := ⟨FPq.val 0⟩

/-- Finiteness predicate of `FPq`. -/
def FPq.isFinite : FPq → Bool
  | .nan => false
  | .val _ => true

/-- Two-input engine over `ℚ` used as the concrete instance for the input
claims: inputs declared in the order azimuth torque, elevation torque, each of
width one. -/
def c1Engine : DiscreteModalSolver ℚ :=
  ⟨[0, 0], [.OSSAzDriveTorque, .OSSElDriveTorque], [], [], [], []⟩

/-- One-mode engine over the NaN-carrying scalars whose solver state holds a
non-finite value. -/
def nanEngine : DiscreteModalSolver FPq :=
  ⟨[], [], [.val 0], [1], [.OSSM1Lcl],
    [⟨.val 0, .val 1, .val 0, .val 0, .val 1, .val 0, .val 0, [], [.val 1],
      .nan, .val 0⟩]⟩

/-- The first components of `solve` at two input vectors agree: the output
contribution is computed from the pre-advance state only. -/
theorem solve_fst_const {α : Type} [Add α] [Mul α] [Zero α]
    (m : Exponential α) (u u' : List α) : (m.solve u).1 = (m.solve u').1 := rfl

/-- The folded output of the engine's per-mode pass does not depend on the
input buffer. -/
theorem runModes_fst_const {α : Type} [Add α] [Mul α] [Zero α]
    (ms : List (Exponential α)) :
    ∀ (acc u u' : List α), (runModes u ms acc).1 = (runModes u' ms acc).1 := by
  induction ms with
  | nil => intro acc u u'; rfl
  | cons m rest ih =>
    intro acc u u'
    simp only [runModes, Exponential.solve]
    exact ih _ u u'

/-- Payload collection succeeds on all-present data and returns the payloads
in arrival order. -/
theorem collectPayloads_all_present {α : Type} :
    ∀ (data : List (Envelope (List α))), (∀ x ∈ data, x.data.isSome) →
      collectPayloads data = .ok (data.filterMap (fun x => x.data)) := by
  intro data
  induction data with
  | nil => intro _; rfl
  | cons x rest ih =>
    intro h
    have hx := h x (List.mem_cons_self x rest)
    match hv : x.data with
    | none => rw [hv] at hx; simp at hx
    | some v =>
      have hr := ih (fun y hy => h y (List.mem_cons_of_mem x hy))
      simp [collectPayloads, hv, hr, List.filterMap_cons, Except.map]

end Dos

namespace Dos

/-- C1: the claim that `DiscreteModalSolver::inputs` gathers payloads by the
declared input-tag list (declared order, zero-fill for absent tags, last
writer wins) is false on the code: `inputs` concatenates the payloads of all
received envelopes in the order received.  With inputs declared as
`[OSSAzDriveTorque, OSSElDriveTorque]` and envelopes received in the order
elevation-then-azimuth, the code produces `u = [2, 1]` while the claimed
gathering produces `[1, 2]`. -/
theorem c1_inputs_declared_order_counterexample :
    engineInputs c1Engine
        [⟨.OSSElDriveTorque, some [2]⟩, ⟨.OSSAzDriveTorque, some [1]⟩] =
      .ok { c1Engine with u := [2, 1] } ∧
    specInputsU [(.OSSAzDriveTorque, 1), (.OSSElDriveTorque, 1)]
        [⟨.OSSElDriveTorque, some [2]⟩, ⟨.OSSAzDriveTorque, some [1]⟩] =
      [1, 2] ∧
    ([2, 1] : List ℚ) ≠ [1, 2] := by
  refine ⟨rfl, rfl, by decide⟩

/-- C1 (amended): `inputs` sets `u` to the concatenation of the payloads of
all received envelopes in the order received (failing when a payload is
missing), ignoring the declared input list; nevertheless a single
single-threaded `step` yields a `y` that does not depend on `u` at all (the
per-mode output has no input feed-through), so feeding a fixed set of filled
envelopes in any permuted order still yields bit-identical `y` after one
step. -/
theorem c1_inputs_amended {α : Type} [Add α] [Mul α] [Zero α]
    (s : DiscreteModalSolver α) (data : List (Envelope (List α)))
    (h : ∀ x ∈ data, x.data.isSome) :
    engineInputs s data =
      .ok { s with u := (data.filterMap (fun x => x.data)).flatten } ∧
    ∀ v v' : List α,
      ((engineNext { s with u := v }).1).y =
        ((engineNext { s with u := v' }).1).y := by
  constructor
  · rw [engineInputs, collectPayloads_all_present data h]; rfl
  · intro v v'
    show (runModes v _ _).1 = (runModes v' _ _).1
    exact runModes_fst_const _ _ v v'

/-- Witness for C1 (amended) at a concrete engine and envelope list. -/
theorem c1_inputs_amended_witness :
    (∀ x ∈ ([⟨.OSSElDriveTorque, some [2]⟩, ⟨.OSSAzDriveTorque, some [1]⟩] :
        List (Envelope (List ℚ))), x.data.isSome) ∧
    (engineInputs c1Engine
        [⟨.OSSElDriveTorque, some [2]⟩, ⟨.OSSAzDriveTorque, some [1]⟩] =
      .ok { c1Engine with
            u := (([⟨.OSSElDriveTorque, some [2]⟩,
                    ⟨.OSSAzDriveTorque, some [1]⟩] :
                List (Envelope (List ℚ))).filterMap
                  (fun x => x.data)).flatten } ∧
    ∀ v v' : List ℚ,
      ((engineNext { c1Engine with u := v }).1).y =
        ((engineNext { c1Engine with u := v' }).1).y) :=
  ⟨by decide, c1_inputs_amended c1Engine _ (by decide)⟩

/-- C2: the eigenfrequency override is applied with Rust's `to_radians`
(degrees to radians, `×π/180`) instead of the Hz-to-rad/s conversion `×2π`
used for every unmodified mode, contradicting the builder method's own
documentation that the overrides are given in Hz: with FEM eigenfrequency
`[1]` Hz and override `(0, 10)` Hz, the angular frequency built for mode 0 is
`10·π/180`, not `2·π·10`. -/
theorem c2_override_uses_degrees :
    buildOmega [1] (some [(0, 10)]) = [f64_to_radians 10] ∧
    f64_to_radians 10 ≠ 2 * Real.pi * 10 := by
  constructor
  · rfl
  · intro h
    rw [f64_to_radians] at h
    nlinarith [Real.pi_pos]

/-- C3 (amended): `outputs` called twice with no intervening `step` returns
equal values for the engine and for the controller adapters, whose `outputs`
assign no state; the wind-load source is the exception (see the
counterexample), its `outputs` advances every stream cursor. -/
theorem c3_outputs_idempotent_amended {α : Type}
    (s : DiscreteModalSolver α) (c : MountController α) :
    (engineOutputsCall ((engineOutputsCall s).2)).1 =
      (engineOutputsCall s).1 ∧
    (mountOutputsCall ((mountOutputsCall c).2)).1 =
      (mountOutputsCall c).1 :=
  ⟨rfl, rfl⟩

/-- C3: the claim fails for the wind-load source: on a one-stream source with
samples `[1]` then `[2]`, two consecutive `outputs` calls with no `step` in
between return different envelopes. -/
theorem c3_wind_outputs_counterexample :
    (windOutputsCall (⟨[⟨.OSSTruss6F, some [[1], [2]]⟩], 2⟩ :
        WindLoading ℚ)).1 = some [⟨.OSSTruss6F, some [1]⟩] ∧
    (windOutputsCall
        ((windOutputsCall (⟨[⟨.OSSTruss6F, some [[1], [2]]⟩], 2⟩ :
          WindLoading ℚ)).2)).1 = some [⟨.OSSTruss6F, some [2]⟩] ∧
    (some [⟨.OSSTruss6F, some [1]⟩] :
        Option (List (Envelope (List ℚ)))) ≠
      some [⟨.OSSTruss6F, some [2]⟩] := by
  refine ⟨rfl, rfl, by decide⟩

/-- C8 (amended): the engine's `step` never returns an error: `Iterator::next`
for `DiscreteModalSolver<Exponential>` unconditionally returns `Some(())`, so
`DOS::step` always returns `Ok` whatever the solver states hold. -/
theorem c8_step_never_errors {α : Type} [Add α] [Mul α] [Zero α]
    (s : DiscreteModalSolver α) : dosStep s = .ok (engineNext s).1 := by
  rw [dosStep]
  rcases h : engineNext s with ⟨s', r⟩
  have : r = some () := by
    rw [engineNext] at h
    rcases runModes s.u s.state_space (List.replicate s.y.length 0) with ⟨y, ss⟩
    cases h
    rfl
  rw [this]

/-- C8: the claim that `step` surfaces non-finite solver state as an error is
false on the code: on a one-mode engine whose solver state holds a non-finite
value, `step` still returns `Ok`. -/
theorem c8_nonfinite_state_counterexample :
    nanEngine.state_space.map (fun m => m.x0.isFinite) = [false] ∧
    (dosStep nanEngine).isOk = true := by
  refine ⟨rfl, by decide⟩

/-- Length of the sliced output sequence: one envelope per declared pair. -/
theorem sliceOuts_length {α : Type} (y : List α) :
    ∀ (tz : List (Tag × Nat)) (pos : Nat),
      (sliceOuts y tz pos).length = tz.length := by
  intro tz
  induction tz with
  | nil => intro pos; rfl
  | cons tn rest ih =>
    intro pos
    rcases tn with ⟨t, n⟩
    simp [sliceOuts, ih]

/-- Tag sequence of the sliced outputs: the declared tags in declared
order. -/
theorem sliceOuts_map_tag {α : Type} (y : List α) :
    ∀ (tz : List (Tag × Nat)) (pos : Nat),
      (sliceOuts y tz pos).map Envelope.tag = tz.map Prod.fst := by
  intro tz
  induction tz with
  | nil => intro pos; rfl
  | cons tn rest ih =>
    intro pos
    rcases tn with ⟨t, n⟩
    simp [sliceOuts, ih]

/-- Payload of the `i`-th sliced output: the contiguous slice of `y` starting
at the accumulated offset, of the `i`-th declared width. -/
theorem sliceOuts_get {α : Type} (y : List α) :
    ∀ (tz : List (Tag × Nat)) (pos : Nat) (i : Nat) (hi : i < tz.length),
      (sliceOuts y tz pos).get ⟨i, by rw [sliceOuts_length]; exact hi⟩ =
        ⟨(tz.get ⟨i, hi⟩).1,
          some ((y.drop (pos + ((tz.take i).map Prod.snd).sum)).take
            (tz.get ⟨i, hi⟩).2)⟩ := by
  intro tz
  induction tz with
  | nil => intro pos i hi; exact absurd hi (by simp)
  | cons tn rest ih =>
    intro pos i hi
    rcases tn with ⟨t, n⟩
    match i with
    | 0 => simp [sliceOuts]
    | Nat.succ j =>
      have hj : j < rest.length := by
        simpa [Nat.succ_lt_succ_iff] using hi
      have := ih (pos + n) j hj
      simp only [List.get_eq_getElem] at this ⊢
      simp only [sliceOuts, List.getElem_cons_succ, List.take_succ_cons,
        List.map_cons, List.sum_cons]
      rw [← Nat.add_assoc]
      exact this

end Dos

namespace Dos

/-- C6: for every engine, `outputs` returns `Some` of one envelope per
declared output tag, in the declared tag order, the `i`-th payload being the
contiguous slice of `y` of the `i`-th stored width, slices taken in
declaration order (offset = sum of the previous widths).  Each payload is
produced by `to_vec()`, i.e. a copy, so in this pure embedding the payloads
are values independent of the engine's buffer. -/
theorem c6_outputs_declared_order {α : Type} (s : DiscreteModalSolver α)
    (h : s.y_tags.length = s.y_sizes.length) :
    engineOutputs s = some (sliceOuts s.y (s.y_tags.zip s.y_sizes) 0) ∧
    (sliceOuts s.y (s.y_tags.zip s.y_sizes) 0).map Envelope.tag = s.y_tags ∧
    (sliceOuts s.y (s.y_tags.zip s.y_sizes) 0).length = s.y_tags.length ∧
    ∀ (i : Nat) (hi : i < (s.y_tags.zip s.y_sizes).length),
      ((sliceOuts s.y (s.y_tags.zip s.y_sizes) 0).get ⟨i, by
          rw [sliceOuts_length]; exact hi⟩).data =
        some ((s.y.drop ((s.y_sizes.take i).sum)).take (s.y_sizes.getD i 0)) := by
  refine ⟨rfl, ?_, ?_, ?_⟩
  · rw [sliceOuts_map_tag]
    exact List.map_fst_zip _ _ (le_of_eq h)
  · rw [sliceOuts_length, List.length_zip, h, Nat.min_self]
  · intro i hi
    have hz : i < s.y_tags.length ∧ i < s.y_sizes.length := by
      rw [List.length_zip] at hi
      omega
    rw [sliceOuts_get s.y _ 0 i hi]
    have hsnd : (s.y_tags.zip s.y_sizes).map Prod.snd = s.y_sizes :=
      List.map_snd_zip _ _ (le_of_eq h.symm)
    have htake : ((s.y_tags.zip s.y_sizes).take i).map Prod.snd =
        s.y_sizes.take i := by
      rw [List.map_take, hsnd]
    have hget : ((s.y_tags.zip s.y_sizes).get ⟨i, hi⟩).2 =
        s.y_sizes.getD i 0 := by
      rw [List.get_eq_getElem, List.getElem_zip]
      exact (List.getD_eq_getElem s.y_sizes 0 hz.2).symm
    rw [htake, hget]
    simp

/-- Witness for C6 at a concrete engine. -/
theorem c6_outputs_declared_order_witness :
    ((⟨[], [], [1, 2, 3], [1, 2], [.OSSM1Lcl, .MCM2Lcl6D], []⟩ :
        DiscreteModalSolver ℚ).y_tags.length =
      (⟨[], [], [1, 2, 3], [1, 2], [.OSSM1Lcl, .MCM2Lcl6D], []⟩ :
        DiscreteModalSolver ℚ).y_sizes.length) ∧
    (engineOutputs (⟨[], [], [1, 2, 3], [1, 2], [.OSSM1Lcl, .MCM2Lcl6D], []⟩ :
        DiscreteModalSolver ℚ) =
      some (sliceOuts [1, 2, 3] ([Tag.OSSM1Lcl, Tag.MCM2Lcl6D].zip [1, 2]) 0) ∧
    (sliceOuts [(1:ℚ), 2, 3] ([Tag.OSSM1Lcl, Tag.MCM2Lcl6D].zip [1, 2]) 0).map
        Envelope.tag = [Tag.OSSM1Lcl, Tag.MCM2Lcl6D] ∧
    (sliceOuts [(1:ℚ), 2, 3] ([Tag.OSSM1Lcl, Tag.MCM2Lcl6D].zip [1, 2]) 0).length =
      [Tag.OSSM1Lcl, Tag.MCM2Lcl6D].length ∧
    ∀ (i : Nat)
      (hi : i < ([Tag.OSSM1Lcl, Tag.MCM2Lcl6D].zip [1, 2]).length),
      ((sliceOuts [(1:ℚ), 2, 3] ([Tag.OSSM1Lcl, Tag.MCM2Lcl6D].zip [1, 2]) 0).get ⟨i, by
          rw [sliceOuts_length]; exact hi⟩).data =
        some (([(1:ℚ), 2, 3].drop (([1, 2].take i).sum)).take
          ([1, 2].getD i 0))) :=
  ⟨rfl, c6_outputs_declared_order _ rfl⟩

/-- C7 (success case): when every selected stream still holds a sample,
`outputs` returns one envelope per stream (the head sample) and advances every
stream's cursor by one. -/
theorem windOutputsAux_all_have {α : Type} :
    ∀ (loads : List (Envelope (List (List α)))),
      (∀ x ∈ loads, ∃ s t, x.data = some (s :: t)) →
      windOutputsAux loads =
        (some (loads.map (fun x => ⟨x.tag, x.data.bind List.head?⟩)),
          loads.map (fun x => ⟨x.tag, x.data.map List.tail⟩)) := by
  intro loads
  induction loads with
  | nil => intro _; rfl
  | cons x rest ih =>
    intro h
    obtain ⟨s, t, hx⟩ := h x (List.mem_cons_self x rest)
    have hr := ih (fun y hy => h y (List.mem_cons_of_mem x hy))
    simp [windOutputsAux, hx, hr]

/-- C7 (exhaustion case): as soon as one selected stream is exhausted (or
absent), `outputs` returns `None`, whatever samples the other streams hold. -/
theorem windOutputsAux_exhausted {α : Type} :
    ∀ (loads : List (Envelope (List (List α)))),
      (∃ x ∈ loads, x.data = none ∨ x.data = some []) →
      (windOutputsAux loads).1 = none := by
  intro loads
  induction loads with
  | nil => intro h; exact absurd h (by simp)
  | cons x rest ih =>
    intro h
    rcases h with ⟨b, hb, hbad⟩
    rcases List.mem_cons.mp hb with hbx | hbr
    · subst hbx
      rcases hbad with h1 | h1 <;> simp [windOutputsAux, h1]
    · match hx : x.data with
      | none => simp [windOutputsAux, hx]
      | some [] => simp [windOutputsAux, hx]
      | some (s :: t) =>
        have := ih ⟨b, hbr, hbad⟩
        simp only [windOutputsAux, hx]
        rcases haux : windOutputsAux rest with ⟨r, rest'⟩
        rw [haux] at this
        simp at this
        subst this
        rfl

/-- C7: each successful `outputs` call on the wind source returns one envelope
per selected stream and advances each stream's cursor by one sample, and
`outputs` returns `None` as soon as any one selected stream is exhausted, even
when other streams still hold samples. -/
theorem c7_wind_outputs (α : Type) (w : WindLoading α) :
    ((∀ x ∈ w.loads, ∃ s t, x.data = some (s :: t)) →
      windOutputsCall w =
        (some (w.loads.map (fun x => ⟨x.tag, x.data.bind List.head?⟩)),
          ⟨w.loads.map (fun x => ⟨x.tag, x.data.map List.tail⟩),
            w.n_sample⟩)) ∧
    ((∃ x ∈ w.loads, x.data = none ∨ x.data = some []) →
      (windOutputsCall w).1 = none) := by
  constructor
  · intro h
    rw [windOutputsCall, windOutputsAux_all_have w.loads h]
  · intro h
    rw [windOutputsCall]
    rcases haux : windOutputsAux w.loads with ⟨r, loads'⟩
    have := windOutputsAux_exhausted w.loads h
    rw [haux] at this
    simpa using this

/-- Witness for C7: a two-stream source where both streams hold a sample (the
success case applies), and a two-stream source whose first stream still holds
samples while the second is exhausted (the exhaustion case applies). -/
theorem c7_wind_outputs_witness :
    ((∀ x ∈ (⟨[⟨.OSSTruss6F, some [[1]]⟩, ⟨.OSSTopEnd6F, some [[2], [3]]⟩], 1⟩ :
        WindLoading ℚ).loads, ∃ s t, x.data = some (s :: t)) ∧
      windOutputsCall (⟨[⟨.OSSTruss6F, some [[1]]⟩,
          ⟨.OSSTopEnd6F, some [[2], [3]]⟩], 1⟩ : WindLoading ℚ) =
        (some ((⟨[⟨.OSSTruss6F, some [[1]]⟩, ⟨.OSSTopEnd6F, some [[2], [3]]⟩], 1⟩ :
            WindLoading ℚ).loads.map
              (fun x => ⟨x.tag, x.data.bind List.head?⟩)),
          ⟨(⟨[⟨.OSSTruss6F, some [[1]]⟩, ⟨.OSSTopEnd6F, some [[2], [3]]⟩], 1⟩ :
            WindLoading ℚ).loads.map
              (fun x => ⟨x.tag, x.data.map List.tail⟩), 1⟩)) ∧
    ((∃ x ∈ (⟨[⟨.OSSTruss6F, some [[1]]⟩, ⟨.OSSTopEnd6F, some []⟩], 1⟩ :
        WindLoading ℚ).loads, x.data = none ∨ x.data = some []) ∧
      (windOutputsCall (⟨[⟨.OSSTruss6F, some [[1]]⟩, ⟨.OSSTopEnd6F, some []⟩], 1⟩ :
          WindLoading ℚ)).1 = none) :=
  ⟨⟨by
      intro x hx
      rcases List.mem_cons.mp hx with h1 | h1
      · subst h1; exact ⟨[1], [], rfl⟩
      · rcases List.mem_cons.mp h1 with h2 | h2
        · subst h2; exact ⟨[2], [[3]], rfl⟩
        · exact absurd h2 (by simp),
    (c7_wind_outputs ℚ _).1 (by
      intro x hx
      rcases List.mem_cons.mp hx with h1 | h1
      · subst h1; exact ⟨[1], [], rfl⟩
      · rcases List.mem_cons.mp h1 with h2 | h2
        · subst h2; exact ⟨[2], [[3]], rfl⟩
        · exact absurd h2 (by simp))⟩,
   ⟨⟨⟨.OSSTopEnd6F, some []⟩, by simp, Or.inr rfl⟩,
    (c7_wind_outputs ℚ _).2 ⟨⟨.OSSTopEnd6F, some []⟩, by simp, Or.inr rfl⟩⟩⟩

/-- C9: in the ASM wiring, `m2_asm_topend` exposes the `OSSTopEnd6F` load
stream under the `MCM2TE6F` tag, `m2_asm_reference_bodies` exposes the
`MCM2Lcl6F` stream under the `MCM2RB6F` tag, and `select_all_with_asm` remaps
no other stream: the remaining five selections expose each stream under its
own tag.  Stated over a full load record with arbitrary stream payloads. -/
theorem c9_asm_remapping {α : Type} (te tr gir cr cell m1 m2 : List (List α))
    (tv : List α) (tl : List (Envelope (List (List α)))) :
    WindLoads.m2_asm_topend
        (⟨[some (.OSSTopEnd6F te), some (.OSSTruss6F tr), some (.OSSGIR6F gir),
            some (.OSSCRING6F cr), some (.OSSCellLcl6F cell),
            some (.OSSM1Lcl6F m1), some (.MCM2Lcl6F m2)], tv, none, tl⟩ :
          WindLoads α) =
      .ok ⟨[some (.OSSTopEnd6F te), some (.OSSTruss6F tr), some (.OSSGIR6F gir),
            some (.OSSCRING6F cr), some (.OSSCellLcl6F cell),
            some (.OSSM1Lcl6F m1), some (.MCM2Lcl6F m2)], tv, none,
          tl ++ [⟨.MCM2TE6F, some te⟩]⟩ ∧
    WindLoads.m2_asm_reference_bodies
        (⟨[some (.OSSTopEnd6F te), some (.OSSTruss6F tr), some (.OSSGIR6F gir),
            some (.OSSCRING6F cr), some (.OSSCellLcl6F cell),
            some (.OSSM1Lcl6F m1), some (.MCM2Lcl6F m2)], tv, none, tl⟩ :
          WindLoads α) =
      .ok ⟨[some (.OSSTopEnd6F te), some (.OSSTruss6F tr), some (.OSSGIR6F gir),
            some (.OSSCRING6F cr), some (.OSSCellLcl6F cell),
            some (.OSSM1Lcl6F m1), some (.MCM2Lcl6F m2)], tv, none,
          tl ++ [⟨.MCM2RB6F, some m2⟩]⟩ ∧
    WindLoads.select_all_with_asm
        (⟨[some (.OSSTopEnd6F te), some (.OSSTruss6F tr), some (.OSSGIR6F gir),
            some (.OSSCRING6F cr), some (.OSSCellLcl6F cell),
            some (.OSSM1Lcl6F m1), some (.MCM2Lcl6F m2)], tv, none, tl⟩ :
          WindLoads α) =
      .ok ⟨[some (.OSSTopEnd6F te), some (.OSSTruss6F tr), some (.OSSGIR6F gir),
            some (.OSSCRING6F cr), some (.OSSCellLcl6F cell),
            some (.OSSM1Lcl6F m1), some (.MCM2Lcl6F m2)], tv, none,
          tl ++ [⟨.MCM2TE6F, some te⟩, ⟨.MCM2RB6F, some m2⟩,
            ⟨.OSSTruss6F, some tr⟩, ⟨.OSSM1Lcl6F, some m1⟩,
            ⟨.OSSCellLcl6F, some cell⟩, ⟨.OSSGIR6F, some gir⟩,
            ⟨.OSSCRING6F, some cr⟩]⟩ := by
  refine ⟨rfl, rfl, ?_⟩
  have h0 :
      WindLoads.select_all_with_asm
          (⟨[some (.OSSTopEnd6F te), some (.OSSTruss6F tr),
              some (.OSSGIR6F gir), some (.OSSCRING6F cr),
              some (.OSSCellLcl6F cell), some (.OSSM1Lcl6F m1),
              some (.MCM2Lcl6F m2)], tv, none, tl⟩ : WindLoads α) =
        .ok ⟨[some (.OSSTopEnd6F te), some (.OSSTruss6F tr),
              some (.OSSGIR6F gir), some (.OSSCRING6F cr),
              some (.OSSCellLcl6F cell), some (.OSSM1Lcl6F m1),
              some (.MCM2Lcl6F m2)], tv, none,
            ((((((tl ++ [⟨.MCM2TE6F, some te⟩]) ++ [⟨.MCM2RB6F, some m2⟩]) ++
                [⟨.OSSTruss6F, some tr⟩]) ++ [⟨.OSSM1Lcl6F, some m1⟩]) ++
                [⟨.OSSCellLcl6F, some cell⟩]) ++ [⟨.OSSGIR6F, some gir⟩]) ++
              [⟨.OSSCRING6F, some cr⟩]⟩ := rfl
  rw [h0]
  simp [List.append_assoc]

/-- C10: the `n_sample` truncation is captured at stream-selection time, not
at build time.  Selecting the truss before `n_sample N` and the top-end after
it builds a source whose truss stream keeps its full length while the top-end
stream is truncated to `N`; running `n_sample N` first truncates both.  The
two pipelines differ whenever `N` is less than the truss stream's length, so
selection and `n_sample` do not commute. -/
theorem c10_n_sample_capture {α : Type} (a b : List (List α)) (tv : List α)
    (N : Nat) (h1 : 0 < N) (h2 : N ≤ a.length) (h3 : N ≤ b.length) :
    ((WindLoads.truss
          (⟨[some (.OSSTruss6F a), some (.OSSTopEnd6F b)], tv, none, []⟩ :
            WindLoads α)).bind
        (fun w => (w.n_sampleSet N).bind
          (fun w => w.topend.bind WindLoads.build)) =
      .ok ⟨[⟨.OSSTruss6F, some a⟩, ⟨.OSSTopEnd6F, some (b.take N)⟩], N⟩) ∧
    (((⟨[some (.OSSTruss6F a), some (.OSSTopEnd6F b)], tv, none, []⟩ :
          WindLoads α).n_sampleSet N).bind
        (fun w => w.truss.bind
          (fun w => w.topend.bind WindLoads.build)) =
      .ok ⟨[⟨.OSSTruss6F, some (a.take N)⟩, ⟨.OSSTopEnd6F, some (b.take N)⟩],
        N⟩) := by
  constructor
  · have e1 :
        (WindLoads.truss
            (⟨[some (.OSSTruss6F a), some (.OSSTopEnd6F b)], tv, none, []⟩ :
              WindLoads α)).bind
          (fun w => (w.n_sampleSet N).bind
            (fun w => w.topend.bind WindLoads.build)) =
        ((⟨[some (.OSSTruss6F a), some (.OSSTopEnd6F b)], tv, none,
            [⟨.OSSTruss6F, some a⟩]⟩ : WindLoads α).n_sampleSet N).bind
          (fun w => w.topend.bind WindLoads.build) := rfl
    have e2 :
        ((⟨[some (.OSSTruss6F a), some (.OSSTopEnd6F b)], tv, none,
            [⟨.OSSTruss6F, some a⟩]⟩ : WindLoads α).n_sampleSet N) =
        .ok ⟨[some (.OSSTruss6F a), some (.OSSTopEnd6F b)], tv,
            some (if N ≤ a.length then N else a.length),
            [⟨.OSSTruss6F, some a⟩]⟩ := rfl
    rw [e1, e2, if_pos h2]
    rfl
  · have e2 :
        ((⟨[some (.OSSTruss6F a), some (.OSSTopEnd6F b)], tv, none, []⟩ :
            WindLoads α).n_sampleSet N) =
        .ok ⟨[some (.OSSTruss6F a), some (.OSSTopEnd6F b)], tv,
            some (if N ≤ a.length then N else a.length), []⟩ := rfl
    rw [e2, if_pos h2]
    rfl

/-- Witness for C10 at a concrete record. -/
theorem c10_n_sample_capture_witness :
    (0 < 1 ∧ 1 ≤ ([[ (1:ℚ) ], [2]] : List (List ℚ)).length ∧
      1 ≤ ([[ (3:ℚ) ], [4]] : List (List ℚ)).length) ∧
    (((WindLoads.truss
          (⟨[some (.OSSTruss6F [[(1:ℚ)], [2]]),
              some (.OSSTopEnd6F [[(3:ℚ)], [4]])], [], none, []⟩ :
            WindLoads ℚ)).bind
        (fun w => (w.n_sampleSet 1).bind
          (fun w => w.topend.bind WindLoads.build)) =
      .ok ⟨[⟨.OSSTruss6F, some [[(1:ℚ)], [2]]⟩,
            ⟨.OSSTopEnd6F, some ([[(3:ℚ)], [4]].take 1)⟩], 1⟩) ∧
    ((((⟨[some (.OSSTruss6F [[(1:ℚ)], [2]]),
          some (.OSSTopEnd6F [[(3:ℚ)], [4]])], [], none, []⟩ :
          WindLoads ℚ).n_sampleSet 1).bind
        (fun w => w.truss.bind
          (fun w => w.topend.bind WindLoads.build)) =
      .ok ⟨[⟨.OSSTruss6F, some ([[(1:ℚ)], [2]].take 1)⟩,
            ⟨.OSSTopEnd6F, some ([[(3:ℚ)], [4]].take 1)⟩], 1⟩))) :=
  ⟨⟨by decide, by decide, by decide⟩,
    c10_n_sample_capture [[(1:ℚ)], [2]] [[(3:ℚ)], [4]] [] 1 (by decide)
      (by decide) (by decide)⟩

/-- The source's Hankel singular value `0.25·‖b‖·‖c‖/(w·z)` equals the spec's
`‖b‖·‖c‖/(4·w·z)` (both vanish when the denominator does). -/
theorem hankel_eq_sigma (w z : ℝ) (b c : List ℝ) :
    hankel_singular_value w z b c = sigmaSpec w z b c := by
  rw [hankel_singular_value, sigmaSpec]
  rcases eq_or_ne (w * z) 0 with h | h
  · have h4 : 4 * w * z = 0 := by rw [mul_assoc, h, mul_zero]
    rw [h, h4, div_zero, div_zero]
  · have h4 : 4 * w * z ≠ 0 := by
      rw [mul_assoc]; exact mul_ne_zero four_ne_zero h
    field_simp
    ring

/-- A filterMap by a guarded `some` is a filter followed by a map. -/
theorem filterMap_guard {β : Type} (p : Nat → Prop) [DecidablePred p]
    (f : Nat → β) : ∀ (l : List Nat),
    l.filterMap (fun k => if p k then some (f k) else none) =
      (l.filter (fun k => decide (p k))).map f := by
  intro l
  induction l with
  | nil => rfl
  | cons a r ih =>
    by_cases h : p a
    · simp [List.filterMap_cons, List.filter_cons, h, ih]
    · simp [List.filterMap_cons, List.filter_cons, h, ih]

end Dos

namespace Dos

/-- C4: with a Hankel threshold, the retained modes are exactly those `k`
with `σ_k = ‖b_k‖·‖c_k‖/(4·ω_k·ζ_k)` strictly greater than the threshold,
in their original relative order (the pruned list is a sublist of the
unpruned one); with no threshold set, every mode up to the truncated count is
retained. -/
theorem c4_hankel_pruning (t : ℝ) (n : Nat) (tau : ℝ) (w zeta : List ℝ)
    (B C : List (List ℝ)) :
    buildStateSpace (some t) n tau w zeta B C =
      ((List.range n).filter (fun k =>
          decide (t < sigmaSpec (w.getD k 0) (zeta.getD k 0) (B.getD k [])
            (C.getD k [])))).map
        (fun k => from_second_order tau (w.getD k 0) (zeta.getD k 0)
          (B.getD k []) (C.getD k [])) ∧
    List.Sublist (buildStateSpace (some t) n tau w zeta B C)
      (buildStateSpace none n tau w zeta B C) ∧
    buildStateSpace none n tau w zeta B C =
      (List.range n).map (fun k => from_second_order tau (w.getD k 0)
        (zeta.getD k 0) (B.getD k []) (C.getD k [])) := by
  have hfirst : buildStateSpace (some t) n tau w zeta B C =
      ((List.range n).filter (fun k =>
          decide (t < sigmaSpec (w.getD k 0) (zeta.getD k 0) (B.getD k [])
            (C.getD k [])))).map
        (fun k => from_second_order tau (w.getD k 0) (zeta.getD k 0)
          (B.getD k []) (C.getD k [])) := by
    have h1 : buildStateSpace (some t) n tau w zeta B C =
        ((List.range n).filter (fun k =>
            decide (hankel_singular_value (w.getD k 0) (zeta.getD k 0)
              (B.getD k []) (C.getD k []) > t))).map
          (fun k => from_second_order tau (w.getD k 0) (zeta.getD k 0)
            (B.getD k []) (C.getD k [])) :=
      filterMap_guard
        (fun k => hankel_singular_value (w.getD k 0) (zeta.getD k 0)
          (B.getD k []) (C.getD k []) > t)
        (fun k => from_second_order tau (w.getD k 0) (zeta.getD k 0)
          (B.getD k []) (C.getD k [])) (List.range n)
    rw [h1]
    congr 1
    refine List.filter_congr ?_
    intro a _
    exact decide_eq_decide.mpr (by rw [gt_iff_lt, hankel_eq_sigma])
  refine ⟨hfirst, ?_, rfl⟩
  rw [hfirst]
  exact List.Sublist.map _ (List.filter_sublist _)

/-- The counting fold of `build` equals `countP`. -/
theorem foldl_count {α : Type} [LinearOrder α] (c : α) :
    ∀ (l : List α) (n0 : Nat),
      l.foldl (fun n ef => if ef ≤ c then n + 1 else n) n0 =
        n0 + l.countP (fun ef => decide (ef ≤ c)) := by
  intro l
  induction l with
  | nil => intro n0; simp
  | cons a r ih =>
    intro n0
    by_cases h : a ≤ c <;>
      simp [List.foldl_cons, List.countP_cons, h, ih] <;> omega

/-- On a sorted list, an element is at most `c` exactly when its index falls
below the count of elements at most `c`: the counted elements form the
prefix. -/
theorem sorted_count_char {α : Type} [LinearOrder α] (c : α) :
    ∀ (l : List α), l.Sorted (· ≤ ·) →
      ∀ (i : Nat) (hi : i < l.length),
        (l.get ⟨i, hi⟩ ≤ c ↔
          i < l.countP (fun ef => decide (ef ≤ c))) := by
  intro l
  induction l with
  | nil => intro _ i hi; exact absurd hi (by simp)
  | cons a r ih =>
    intro hs i hi
    obtain ⟨ha, hr⟩ := List.sorted_cons.mp hs
    have hcount : (a :: r).countP (fun ef => decide (ef ≤ c)) =
        r.countP (fun ef => decide (ef ≤ c)) + if a ≤ c then 1 else 0 := by
      rw [List.countP_cons]
      simp
    match i with
    | 0 =>
      simp only [List.get]
      by_cases h : a ≤ c
      · simp [hcount, h]
      · have hz : r.countP (fun ef => decide (ef ≤ c)) = 0 := by
          refine List.countP_eq_zero.mpr ?_
          intro b hb
          simp only [decide_eq_true_eq]
          intro hbc
          exact h (le_trans (ha b hb) hbc)
        simp [hcount, h, hz]
    | Nat.succ j =>
      have hj : j < r.length := by simpa [Nat.succ_lt_succ_iff] using hi
      have := ih hr j hj
      by_cases h : a ≤ c
      · simpa [hcount, h, Nat.succ_lt_succ_iff] using this
      · have hz : r.countP (fun ef => decide (ef ≤ c)) = 0 := by
          refine List.countP_eq_zero.mpr ?_
          intro b hb
          simp only [decide_eq_true_eq]
          intro hbc
          exact h (le_trans (ha b hb) hbc)
        have hgf : ¬ r.get ⟨j, hj⟩ ≤ c := by
          intro hbc
          exact h (le_trans (ha _ (List.get_mem r j hj)) hbc)
        rw [hcount, hz, if_neg h]
        constructor
        · intro hbc; exact absurd hbc hgf
        · intro hlt; exact absurd hlt (by omega)

/-- Stepping an engine with no modes refills `y` with zeros and keeps the
mode list empty. -/
theorem engineNext_no_modes {α : Type} [Add α] [Mul α] [Zero α]
    (s : DiscreteModalSolver α) (h : s.state_space = []) :
    stepEngine s =
      { s with y := List.replicate s.y.length 0, state_space := [] } := by
  rcases s with ⟨u, ut, y, ys, yt, ss⟩
  simp only at h
  subst h
  rfl

end Dos

namespace Dos

/-- C5: with a cutoff set, `build` keeps the first `K` modes where `K` counts
the FEM eigenfrequencies at most the cutoff; on a sorted (ascending)
eigenfrequency vector those are exactly the modes with eigenfrequency at most
the cutoff, and `K` can be below the FEM mode count.  For a cutoff below every
FEM eigenfrequency, `K = 0`, the built mode list is empty, and every
subsequent step leaves the output vector all-zero. -/
theorem c5_max_eigen_frequency {α : Type} [LinearOrder α] (cutoff : α)
    (efs : List α) (nf : Nat) (hsorted : efs.Sorted (· ≤ ·)) :
    buildNModes (some cutoff) efs nf ≤ efs.length ∧
    (∀ (i : Nat) (hi : i < efs.length),
      (efs.get ⟨i, hi⟩ ≤ cutoff ↔ i < buildNModes (some cutoff) efs nf)) ∧
    ((∀ f ∈ efs, cutoff < f) → buildNModes (some cutoff) efs nf = 0) ∧
    (∀ (t : Option ℝ) (tau : ℝ) (w zeta : List ℝ) (B C : List (List ℝ)),
      buildStateSpace t 0 tau w zeta B C = []) ∧
    (∀ {β : Type} [Add β] [Mul β] [Zero β] (s : DiscreteModalSolver β),
      s.state_space = [] → ∀ (k : Nat),
        (stepEngine^[k + 1] s).y = List.replicate s.y.length 0) := by
  have hcnt : buildNModes (some cutoff) efs nf =
      efs.countP (fun ef => decide (ef ≤ cutoff)) := by
    rw [buildNModes, foldl_count]
    simp
  refine ⟨?_, ?_, ?_, ?_, ?_⟩
  · rw [hcnt]
    exact List.countP_le_length _
  · intro i hi
    rw [hcnt]
    exact sorted_count_char cutoff efs hsorted i hi
  · intro h
    rw [hcnt]
    refine List.countP_eq_zero.mpr ?_
    intro b hb
    simp only [decide_eq_true_eq]
    exact fun hbc => absurd (h b hb) (not_lt.mpr hbc)
  · intro t tau w zeta B C
    cases t <;> rfl
  · intro β _ _ _ s h k
    induction k generalizing s with
    | zero =>
      rw [Function.iterate_one, engineNext_no_modes s h]
    | succ j ih =>
      rw [Function.iterate_succ_apply]
      have h' : (stepEngine s).state_space = [] := by
        rw [engineNext_no_modes s h]
      have hy : (stepEngine s).y.length = s.y.length := by
        rw [engineNext_no_modes s h]
        simp
      rw [ih _ h', hy]

/-- Witness for C5 at a concrete sorted eigenfrequency vector, a cutoff below
every eigenfrequency, and a concrete no-mode engine. -/
theorem c5_max_eigen_frequency_witness :
    ([(2:ℚ), 3].Sorted (· ≤ ·)) ∧
    (buildNModes (some (1:ℚ)) [2, 3] 2 ≤ ([(2:ℚ), 3]).length ∧
    (∀ (i : Nat) (hi : i < ([(2:ℚ), 3]).length),
      (List.get [(2:ℚ), 3] ⟨i, hi⟩ ≤ 1 ↔
        i < buildNModes (some (1:ℚ)) [2, 3] 2)) ∧
    ((∀ f ∈ [(2:ℚ), 3], 1 < f) → buildNModes (some (1:ℚ)) [2, 3] 2 = 0) ∧
    (∀ (t : Option ℝ) (tau : ℝ) (w zeta : List ℝ) (B C : List (List ℝ)),
      buildStateSpace t 0 tau w zeta B C = []) ∧
    (∀ {β : Type} [Add β] [Mul β] [Zero β] (s : DiscreteModalSolver β),
      s.state_space = [] → ∀ (k : Nat),
        (stepEngine^[k + 1] s).y = List.replicate s.y.length 0)) :=
  ⟨by decide, c5_max_eigen_frequency 1 [2, 3] 2 (by decide)⟩

end Dos
